import Mathlib

/-!
Verification of the search-engine binding synchronization core, a shallow
embedding of `connector_search_engine/models/se_binding.py`.

Modelling conventions:
* Index documents (the JSON payloads produced by the export mapper) are
  modelled as natural numbers; the `data` field of a binding is an
  `Option Nat` (`none` is the initial null payload).
* Backends, indexes and record ids are natural numbers.  The related field
  `se_backend_id = index_id.backend_id` is stored explicitly on each binding.
* A database / recordset is a `List Binding`; Odoo recordsets have distinct
  ids, which appears as a `Nodup` hypothesis where a theorem needs it.
* The pluggable capabilities (export mapper, validator) are an explicit
  environment `Env`; the mapper is a function of the bound record (its id)
  and the validator a function of the backend collection and the document.
* Writes performed through the ORM are recorded in an explicit trace of
  `WriteEvent`s so that "performs a write" is observable.
-/

namespace SeBinding

/-- The `sync_state` selection field (se_binding.py lines 38-48). -/
inductive SyncState
  | new
  | to_update
  | scheduled
  | done
  | to_be_checked
  deriving DecidableEq

/-- One `se.binding` record (se_binding.py lines 28-56). -/
structure Binding where
  id : Nat
  index_id : Nat
  /-- Related field: the backend of `index_id` (se_binding.py lines 28-30). -/
  se_backend_id : Nat
  sync_state : SyncState
  data : Option Nat
  date_modified : Option Nat
  date_syncronized : Option Nat
  active : Bool
  deriving DecidableEq

/-- A values dictionary passed to `write`; `none` means the key is absent.
Only the fields written by this model are represented. -/
structure Vals where
  active : Option Bool := none
  sync_state : Option SyncState := none
  data : Option (Option Nat) := none
  deriving DecidableEq

/-- The base-model `write` applied to one record: every key present in the
values dictionary overwrites the corresponding field. -/
def applyVals (b : Binding) (v : Vals) : Binding :=
  { b with
    active := v.active.getD b.active
    sync_state := v.sync_state.getD b.sync_state
    data := v.data.getD b.data }

/-- The overridden `SeBinding.write` (se_binding.py lines 73-82), restricted
to a single record of the written recordset.  When the values dictionary
deactivates the record (`"active" in vals and not vals["active"]`) and the
record is not `new`, the record is written with `vals` plus
`sync_state = "to_update"`; otherwise it is written with `vals` unchanged. -/
def writeOne (b : Binding) (v : Vals) : Binding :=
  if v.active = some false ∧ b.sync_state ≠ SyncState.new then
    applyVals b { v with sync_state := some SyncState.to_update }
  else
    applyVals b v

/-- The overridden `SeBinding.write` on a whole recordset: the source splits
the recordset into `not_new` (written with the amended values) and the rest
(written with the original values); record by record this is `writeOne`. -/
def write (recs : List Binding) (v : Vals) : List Binding :=
  recs.map (fun b => writeOne b v)

/-- The two `UserError`s raised by `unlink` (se_binding.py lines 96-106):
`unactivateItFirst` is the message "You cannot delete the binding,
unactivate it first" and `waitUntilSynchronized` the message "You cannot
delete the binding, wait until it is synchronized". -/
inductive UserError
  | unactivateItFirst (id : Nat)
  | waitUntilSynchronized (id : Nat)
  deriving DecidableEq

/-- The deletion guard of `unlink` (se_binding.py lines 86-88): a record may
be hard-deleted when `sync_state == "new"` or
(`sync_state == "done"` and not active). -/
def canUnlink (b : Binding) : Bool :=
  decide (b.sync_state = SyncState.new ∨
    (b.sync_state = SyncState.done ∧ b.active = false))

/-- The `for record in self` loop of `unlink` (se_binding.py lines 85-93):
the first record failing the guard raises; an active offender raises the
"unactivate it first" error, an inactive one the "wait until it is
synchronized" error. -/
def unlinkCheck : List Binding → Option UserError
  | [] => none
  | b :: rest =>
    if canUnlink b then unlinkCheck rest
    else if b.active then some (UserError.unactivateItFirst b.id)
    else some (UserError.waitUntilSynchronized b.id)

/-- `unlink` (se_binding.py lines 84-94) as a database transformation: if
the loop raises, the exception aborts the call and the database is left
unchanged; otherwise `super().unlink()` removes all records of the
recordset from the database. -/
def unlink (db recs : List Binding) : List Binding × Option UserError :=
  match unlinkCheck recs with
  | some e => (db, some e)
  | none => (db.filter (fun b => decide (b.id ∉ recs.map Binding.id)), none)

/-- The capability environment: the `se.export.mapper` component as a
function of the bound record, and the backend collection validator
`work.collection._validate_record` as a function of the backend and the
candidate document (`some msg` is a validation error). -/
structure Env where
  mapper : Nat → Nat
  validate : Nat → Nat → Option String

/-- `get_export_data` (se_binding.py lines 63-65): the body is
`return self.data`; it calls no component and performs no write, so the
embedding returns the stored payload and the database unchanged, ignoring
the capability environment. -/
def get_export_data (env : Env) (db : List Binding) (b : Binding) :
    Option Nat × List Binding :=
  (b.data, db)

/-- One work session yielded by `_work_by_index`: the backend and index the
session is opened on, and the records of the group. -/
structure Work where
  backend : Nat
  index : Nat
  records : List Binding
  deriving DecidableEq

/-- `self.mapped(field)`: the distinct values of a relational field, in
order of first appearance. -/
def dedupFirst : List Nat → List Nat
  | [] => []
  | a :: rest => a :: (dedupFirst rest).filter (fun x => decide (x ≠ a))

/-- `_work_by_index` (se_binding.py lines 116-129): two nested loops over
`self.mapped("se_backend_id")` and `self.mapped("index_id")`; for each
backend/index pair the group records are the bindings of the recordset
matching that backend, that index and the requested `active` flag.  Every
pair yields a work session, with no emptiness check on the filtered
records. -/
def _work_by_index (recs : List Binding) (active : Bool) : List Work :=
  (dedupFirst (recs.map Binding.se_backend_id)).flatMap (fun backend =>
    (dedupFirst (recs.map Binding.index_id)).map (fun index =>
      { backend := backend
        index := index
        records := recs.filter (fun b =>
          decide (b.se_backend_id = backend ∧ b.index_id = index ∧
            b.active = active)) }))

/-- One ORM write as recorded in the trace: the ids of the written
recordset and the values dictionary. -/
structure WriteEvent where
  ids : List Nat
  vals : Vals
  deriving DecidableEq

/-- The mutable state of one `recompute_json` run: the database plus the
`validation_errors` and `to_be_checked` accumulators of the source, and the
trace of writes performed so far. -/
structure RecomputeAcc where
  db : List Binding
  validation_errors : List String
  to_be_checked : List Nat
  writes : List WriteEvent
  deriving DecidableEq

/-- A recordset `write` identified by ids, applied to the database: each
database record whose id belongs to the written recordset goes through the
overridden `write` (which for the values dictionaries used by
`recompute_json`, none of which contain `active`, is the base write). -/
def dbWrite (db : List Binding) (ids : List Nat) (v : Vals) : List Binding :=
  db.map (fun b => if b.id ∈ ids then writeOne b v else b)

/-- The validation error message `"{binding}: {error}"` of
se_binding.py line 152, with the record repr modelled by its id. -/
def errorMsg (b : Binding) (error : String) : String :=
  toString b.id ++ ": " ++ error

/-- The body of the inner `for binding in work.records` loop of
`recompute_json` (se_binding.py lines 145-162).  `collection` is the
backend collection of the work session.  On a validation error the message
and the binding id are accumulated and the record is skipped; otherwise, if
the mapped document differs from the stored `data` or `force_export` is
set, the record is written with the new `data`, adding
`sync_state = "to_update"` unless the record is already in that state. -/
def processBinding (env : Env) (force_export : Bool) (collection : Nat)
    (acc : RecomputeAcc) (binding : Binding) : RecomputeAcc :=
  let index_record := env.mapper binding.id
  match env.validate collection index_record with
  | some error =>
    { acc with
      validation_errors := acc.validation_errors ++ [errorMsg binding error]
      to_be_checked := acc.to_be_checked ++ [binding.id] }
  | none =>
    if binding.data ≠ some index_record ∨ force_export then
      let vals : Vals :=
        { data := some (some index_record)
          sync_state :=
            if binding.sync_state ≠ SyncState.to_update then
              some SyncState.to_update
            else none }
      { acc with
        db := dbWrite acc.db [binding.id] vals
        writes := acc.writes ++ [⟨[binding.id], vals⟩] }
    else acc

/-- One iteration of the outer `for work in self.sudo()._work_by_index()`
loop of `recompute_json`: every record of the work session is processed
with the validator of the session backend. -/
def processWork (env : Env) (force_export : Bool) (acc : RecomputeAcc)
    (work : Work) : RecomputeAcc :=
  work.records.foldl (processBinding env force_export work.backend) acc

/-- The values dictionary of the final batched write
`self.browse(to_be_checked).write({"sync_state": "to_be_checked"})`. -/
def toBeCheckedVals : Vals :=
  { sync_state := some SyncState.to_be_checked }

/-- `recompute_json` (se_binding.py lines 132-167), returning the final
state together with the report string returned by the method.  After the
group loop, the validation errors (if any) are folded into the report and
the collected `to_be_checked` ids (if any) are written once, in a single
batched write. -/
def recompute_json (env : Env) (recs : List Binding) (force_export : Bool) :
    RecomputeAcc × String :=
  let acc : RecomputeAcc := ⟨recs, [], [], []⟩
  let acc := (_work_by_index recs true).foldl (processWork env force_export) acc
  let result : List String :=
    if acc.validation_errors = [] then []
    else ["Validation errors" ++ "\n" ++
      String.intercalate "\n" acc.validation_errors]
  let acc :=
    if acc.to_be_checked = [] then acc
    else
      { acc with
        db := dbWrite acc.db acc.to_be_checked toBeCheckedVals
        writes := acc.writes ++ [⟨acc.to_be_checked, toBeCheckedVals⟩] }
  (acc, String.intercalate "\n\n" result)

/-- One component invocation performed by `synchronize`: the usage string
the component is looked up with, the backend and index of the work session,
and the ids of the records the component runs on. -/
structure CapCall where
  usage : String
  backend : Nat
  index : Nat
  ids : List Nat
  deriving DecidableEq

/-- The observable outcome of `synchronize`: the component invocations in
order, the accumulated `export_ids` and `delete_ids`, and the returned
report. -/
structure SyncResult where
  calls : List CapCall
  export_ids : List Nat
  delete_ids : List Nat
  report : String
  deriving DecidableEq

/-- `synchronize` (se_binding.py lines 178-201): an export pass over the
work sessions of the active bindings, then a delete pass over the work
sessions of the inactive bindings, each invoking its component per session
and accumulating the session record ids; the exporter and deleter act on
the external index only, so the local database is untouched. -/
def synchronize (recs : List Binding) : SyncResult :=
  let exportWorks := _work_by_index recs true
  let export_ids :=
    exportWorks.foldl (fun ids w => ids ++ w.records.map Binding.id) []
  let deleteWorks := _work_by_index recs false
  let delete_ids :=
    deleteWorks.foldl (fun ids w => ids ++ w.records.map Binding.id) []
  { calls :=
      exportWorks.map (fun w =>
        ⟨"se.record.exporter", w.backend, w.index, w.records.map Binding.id⟩)
      ++ deleteWorks.map (fun w =>
        ⟨"record.exporter.deleter", w.backend, w.index,
          w.records.map Binding.id⟩)
    export_ids := export_ids
    delete_ids := delete_ids
    report := "Exported ids : " ++ toString export_ids ++
      "\nDeleted ids : " ++ toString delete_ids }

/-- Derived form: the net effect of one `recompute_json` run on a single
binding (proved equal to the run below, `recompute_json_db_eq`).  An
inactive binding is in no work session and is untouched; an active binding
failing validation ends up `to_be_checked` with its `data` untouched; an
active binding whose document differs from the stored `data` (or any, under
`force_export`) gets the document as `data` and the state `to_update`;
otherwise the binding is untouched. -/
def recomputeOne (env : Env) (force_export : Bool) (b : Binding) : Binding :=
  if b.active = true then
    let index_record := env.mapper b.id
    match env.validate b.se_backend_id index_record with
    | some _ => { b with sync_state := SyncState.to_be_checked }
    | none =>
      if b.data ≠ some index_record ∨ force_export then
        { b with data := some index_record, sync_state := SyncState.to_update }
      else b
  else b

/-- Lookup of a record by id, as `find?` over the database list. -/
def getById (db : List Binding) (x : Nat) : Option Binding :=
  db.find? (fun b => decide (b.id = x))

/-! ### Basic lemmas: writes preserve ids, lookup by id -/

theorem applyVals_id (b : Binding) (v : Vals) : (applyVals b v).id = b.id := rfl

theorem writeOne_id (b : Binding) (v : Vals) : (writeOne b v).id = b.id := by
  unfold writeOne
  split <;> rfl

theorem getById_map (g : Binding → Binding) (hg : ∀ b, (g b).id = b.id)
    (db : List Binding) (x : Nat) :
    getById (db.map g) x = (getById db x).map g := by
  induction db with
  | nil => rfl
  | cons b rest ih =>
    simp only [getById, List.map_cons, List.find?_cons] at *
    rw [hg b]
    by_cases h : b.id = x
    · simp [h]
    · simp only [h, decide_False]
      exact ih

theorem getById_id {db : List Binding} {x : Nat} {b : Binding}
    (h : getById db x = some b) : b.id = x := by
  unfold getById at h
  have hp := List.find?_some h
  simpa using hp

theorem getById_mem {db : List Binding} {x : Nat} {b : Binding}
    (h : getById db x = some b) : b ∈ db :=
  List.mem_of_find?_eq_some h

theorem getById_eq_none {db : List Binding} {x : Nat} :
    getById db x = none ↔ ∀ b ∈ db, b.id ≠ x := by
  simp [getById, List.find?_eq_none]

theorem getById_of_nodup {db : List Binding} (h : (db.map Binding.id).Nodup)
    {b : Binding} (hb : b ∈ db) : getById db b.id = some b := by
  induction db with
  | nil => cases hb
  | cons c rest ih =>
    rw [List.map_cons, List.nodup_cons] at h
    rcases List.mem_cons.mp hb with rfl | hb'
    · simp [getById]
    · have hne : ¬ c.id = b.id := by
        intro he
        exact h.1 (he ▸ List.mem_map_of_mem Binding.id hb')
      simp only [getById, List.find?_cons, hne, decide_False]
      exact ih h.2 hb'

theorem dbWrite_map_id (db : List Binding) (ids : List Nat) (v : Vals) :
    (dbWrite db ids v).map Binding.id = db.map Binding.id := by
  unfold dbWrite
  rw [List.map_map]
  apply List.map_congr_left
  intro b _
  by_cases h : b.id ∈ ids <;> simp [h, writeOne_id]

theorem getById_dbWrite (db : List Binding) (ids : List Nat) (v : Vals)
    (x : Nat) :
    getById (dbWrite db ids v) x =
      (getById db x).map (fun b => if b.id ∈ ids then writeOne b v else b) := by
  apply getById_map
  intro b
  by_cases h : b.id ∈ ids <;> simp [h, writeOne_id]

theorem getById_dbWrite_mem {db : List Binding} {ids : List Nat} {v : Vals}
    {x : Nat} (hx : x ∈ ids) :
    getById (dbWrite db ids v) x = (getById db x).map (fun b => writeOne b v) := by
  rw [getById_dbWrite]
  cases h : getById db x with
  | none => rfl
  | some b => simp [getById_id h, hx]

theorem getById_dbWrite_not_mem {db : List Binding} {ids : List Nat} {v : Vals}
    {x : Nat} (hx : x ∉ ids) :
    getById (dbWrite db ids v) x = getById db x := by
  rw [getById_dbWrite]
  cases h : getById db x with
  | none => rfl
  | some b => simp [getById_id h, hx]

theorem dbWrite_nil (db : List Binding) (v : Vals) : dbWrite db [] v = db := by
  simp [dbWrite]

/-- Two databases with the same id sequence, no duplicate id, and the same
lookup at every id are equal. -/
theorem eq_of_getById_eq {db₁ db₂ : List Binding}
    (hid : db₁.map Binding.id = db₂.map Binding.id)
    (hnd : (db₁.map Binding.id).Nodup)
    (h : ∀ x, getById db₁ x = getById db₂ x) : db₁ = db₂ := by
  induction db₁ generalizing db₂ with
  | nil => cases db₂ with
    | nil => rfl
    | cons c rest => simp at hid
  | cons b rest₁ ih =>
    cases db₂ with
    | nil => simp at hid
    | cons c rest₂ =>
      simp only [List.map_cons, List.cons.injEq] at hid
      rw [List.map_cons, List.nodup_cons] at hnd
      have hbc : b = c := by
        have hb := h b.id
        simp only [getById, List.find?_cons, decide_True, hid.1, decide_eq_true_eq] at hb
        simpa [hid.1] using hb
      refine hbc ▸ congrArg (List.cons b) ?_
      apply ih hid.2 hnd.2
      intro x
      by_cases hx : x = b.id
      · subst hx
        have h₁ : getById rest₁ b.id = none :=
          getById_eq_none.mpr (fun d hd he => hnd.1 (he ▸ List.mem_map_of_mem Binding.id hd))
        have h₂ : getById rest₂ b.id = none := by
          refine getById_eq_none.mpr (fun d hd he => hnd.1 ?_)
          rw [hid.2]
          exact he ▸ List.mem_map_of_mem Binding.id hd
        rw [h₁, h₂]
      · have hb := h x
        have h1 : ¬ b.id = x := fun he => hx he.symm
        have h2 : ¬ c.id = x := by rw [← hid.1] at *; exact h1
        simpa [getById, List.find?_cons, h1, h2] using hb

/-! ### The work partitioner -/

theorem mem_dedupFirst {l : List Nat} {x : Nat} : x ∈ dedupFirst l ↔ x ∈ l := by
  induction l with
  | nil => simp [dedupFirst]
  | cons a rest ih =>
    simp only [dedupFirst, List.mem_cons, List.mem_filter, ih, decide_eq_true_eq]
    by_cases h : x = a <;> simp [h]

theorem nodup_dedupFirst (l : List Nat) : (dedupFirst l).Nodup := by
  induction l with
  | nil => simp [dedupFirst]
  | cons a rest ih =>
    rw [dedupFirst, List.nodup_cons]
    refine ⟨fun hmem => ?_, ih.filter _⟩
    have := (List.mem_filter.mp hmem).2
    simp at this

/-- The work session generated for one backend/index pair. -/
def mkWork (recs : List Binding) (active : Bool) (p : Nat × Nat) : Work :=
  { backend := p.1
    index := p.2
    records := recs.filter (fun b =>
      decide (b.se_backend_id = p.1 ∧ b.index_id = p.2 ∧ b.active = active)) }

/-- The pairs enumerated by the nested loops of `_work_by_index`. -/
def workPairs (recs : List Binding) : List (Nat × Nat) :=
  (dedupFirst (recs.map Binding.se_backend_id)).product
    (dedupFirst (recs.map Binding.index_id))

theorem _work_by_index_eq (recs : List Binding) (active : Bool) :
    _work_by_index recs active = (workPairs recs).map (mkWork recs active) := by
  simp only [_work_by_index, workPairs, List.product, mkWork, List.map_flatMap,
    List.map_map]
  rfl

theorem workPairs_nodup (recs : List Binding) : (workPairs recs).Nodup :=
  (nodup_dedupFirst _).product (nodup_dedupFirst _)

theorem mem_workPairs {recs : List Binding} {b : Binding} (hb : b ∈ recs) :
    (b.se_backend_id, b.index_id) ∈ workPairs recs := by
  unfold workPairs
  rw [List.pair_mem_product]
  exact ⟨mem_dedupFirst.mpr (List.mem_map_of_mem _ hb),
    mem_dedupFirst.mpr (List.mem_map_of_mem _ hb)⟩

theorem mem_mkWork_records {recs : List Binding} {active : Bool}
    {p : Nat × Nat} {b : Binding} :
    b ∈ (mkWork recs active p).records ↔
      b ∈ recs ∧ b.se_backend_id = p.1 ∧ b.index_id = p.2 ∧
        b.active = active := by
  simp [mkWork, List.mem_filter]

/-- The group filter splits into the `active` filter followed by a filter on
the backend/index pair. -/
theorem mkWork_records_eq (recs : List Binding) (active : Bool)
    (p : Nat × Nat) :
    (mkWork recs active p).records =
      (recs.filter (fun b => decide (b.active = active))).filter
        (fun b => decide ((b.se_backend_id, b.index_id) = p)) := by
  unfold mkWork
  rw [List.filter_filter]
  apply List.filter_congr
  intro b _
  rcases p with ⟨p1, p2⟩
  rw [← Bool.decide_and]
  apply decide_eq_decide.mpr
  rw [Prod.mk.injEq]
  tauto

/-- Partition lemma: folding a nodup list of keys and collecting, for each
key, the elements of `l` with that key, is a permutation of `l` as soon as
every key of `l` occurs in the key list. -/
theorem flatMap_filter_key_perm {α β : Type} [DecidableEq β] :
    ∀ (P : List β) (l : List α) (key : α → β), P.Nodup →
      (∀ a ∈ l, key a ∈ P) →
      (P.flatMap (fun p => l.filter (fun a => decide (key a = p)))).Perm l := by
  intro P
  induction P with
  | nil =>
    intro l key _ hmem
    cases l with
    | nil => simp
    | cons a rest => exact absurd (hmem a (by simp)) (by simp)
  | cons p P' ih =>
    intro l key hP hmem
    rw [List.nodup_cons] at hP
    rw [List.flatMap_cons]
    have hbind : P'.flatMap (fun q => l.filter (fun a => decide (key a = q))) =
        P'.flatMap (fun q => (l.filter (fun a => !decide (key a = p))).filter
          (fun a => decide (key a = q))) := by
      apply List.flatMap_congr
      intro q hq
      rw [List.filter_filter]
      apply List.filter_congr
      intro a _
      by_cases h : key a = q
      · have hqp : ¬ q = p := by
          intro he
          exact hP.1 (he ▸ hq)
        simp [h, hqp]
      · simp [h]
    rw [hbind]
    have hsub : ∀ a ∈ l.filter (fun a => !decide (key a = p)), key a ∈ P' := by
      intro a ha
      have h1 := (List.mem_filter.mp ha).2
      rcases List.mem_cons.mp (hmem a (List.mem_filter.mp ha).1) with he | h3
      · simp [he] at h1
      · exact h3
    have hperm := ih (l.filter (fun a => !decide (key a = p))) key hP.2 hsub
    exact (List.Perm.append_left _ hperm).trans (List.filter_append_perm _ l)

/-- The records of all work sessions are, together, a permutation of the
bindings of the recordset matching the `active` filter. -/
theorem work_records_perm (recs : List Binding) (active : Bool) :
    ((_work_by_index recs active).flatMap Work.records).Perm
      (recs.filter (fun b => decide (b.active = active))) := by
  rw [_work_by_index_eq, List.flatMap_map]
  have h1 : (fun p => Work.records (mkWork recs active p)) =
      (fun p => (recs.filter (fun b => decide (b.active = active))).filter
        (fun b => decide ((b.se_backend_id, b.index_id) = p))) := by
    funext p
    exact mkWork_records_eq recs active p
  rw [h1]
  apply flatMap_filter_key_perm (workPairs recs)
    (recs.filter (fun b => decide (b.active = active)))
    (fun b => (b.se_backend_id, b.index_id)) (workPairs_nodup recs)
  intro b hb
  exact mem_workPairs (List.mem_filter.mp hb).1

end SeBinding

namespace SeBinding

/-! ### The recompute loop as a fold over one flat list of bindings -/

theorem foldl_flatMap {α β γ : Type} (l : List α) (f : α → List β)
    (g : γ → β → γ) (init : γ) :
    ((l.flatMap f).foldl g init) =
      l.foldl (fun acc a => (f a).foldl g acc) init := by
  induction l generalizing init with
  | nil => rfl
  | cons a rest ih => simp [List.flatMap_cons, List.foldl_append, ih]

theorem foldl_congr_mem {α β : Type} {l : List α} {f g : β → α → β}
    (h : ∀ acc, ∀ a ∈ l, f acc a = g acc a) (init : β) :
    l.foldl f init = l.foldl g init := by
  induction l generalizing init with
  | nil => rfl
  | cons a rest ih =>
    simp only [List.foldl_cons]
    rw [h init a (List.mem_cons_self a rest)]
    exact ih (fun acc b hb => h acc b (List.mem_cons_of_mem a hb)) _

/-- The loop body with the session collection taken from the binding itself:
inside a work session every record has the session backend as its
`se_backend_id`, so this agrees with `processBinding` on session records. -/
def processBindingSelf (env : Env) (force_export : Bool) (acc : RecomputeAcc)
    (b : Binding) : RecomputeAcc :=
  processBinding env force_export b.se_backend_id acc b

/-- The validation outcome of one binding: the validator of its backend
applied to its mapped document. -/
def validateOf (env : Env) (b : Binding) : Option String :=
  env.validate b.se_backend_id (env.mapper b.id)

/-- Whether the binding's candidate document fails validation. -/
def failsB (env : Env) (b : Binding) : Bool := (validateOf env b).isSome

/-- The values dictionary written for one binding by the main loop, when a
write happens: `none` when the record fails validation or needs no write. -/
def successVals (env : Env) (force_export : Bool) (b : Binding) :
    Option Vals :=
  match validateOf env b with
  | some _ => none
  | none =>
    if b.data ≠ some (env.mapper b.id) ∨ force_export then
      some { data := some (some (env.mapper b.id))
             sync_state :=
               if b.sync_state ≠ SyncState.to_update then
                 some SyncState.to_update
               else none }
    else none

/-- The effect of the main loop on one binding (before the final batched
`to_be_checked` write). -/
def mapStep (env : Env) (force_export : Bool) (b : Binding) : Binding :=
  match successVals env force_export b with
  | some v => writeOne b v
  | none => b

theorem mapStep_id (env : Env) (force_export : Bool) (b : Binding) :
    (mapStep env force_export b).id = b.id := by
  unfold mapStep
  cases successVals env force_export b with
  | none => rfl
  | some v => exact writeOne_id b v

/-- The outer loop of `recompute_json` is the fold of the per-binding body
over the concatenated records of all work sessions. -/
theorem groups_foldl_eq (env : Env) (force_export : Bool)
    (recs : List Binding) (acc : RecomputeAcc) :
    (_work_by_index recs true).foldl (processWork env force_export) acc =
      ((_work_by_index recs true).flatMap Work.records).foldl
        (processBindingSelf env force_export) acc := by
  rw [foldl_flatMap]
  apply foldl_congr_mem
  intro a w hw
  unfold processWork
  apply foldl_congr_mem
  intro a' b hb
  rw [_work_by_index_eq] at hw
  obtain ⟨p, _, rfl⟩ := List.mem_map.mp hw
  have hbe : b.se_backend_id = p.1 := (mem_mkWork_records.mp hb).2.1
  simp [processBindingSelf, mkWork, hbe]

/-- Unfolding of the loop body at a binding failing validation. -/
theorem processBindingSelf_fails {env : Env} {force_export : Bool}
    {acc : RecomputeAcc} {b : Binding} {e : String}
    (h : validateOf env b = some e) :
    processBindingSelf env force_export acc b =
      { acc with
        validation_errors := acc.validation_errors ++ [errorMsg b e]
        to_be_checked := acc.to_be_checked ++ [b.id] } := by
  unfold validateOf at h
  simp only [processBindingSelf, processBinding, h]

/-- Unfolding of the loop body at a binding passing validation. -/
theorem processBindingSelf_ok {env : Env} {force_export : Bool}
    {acc : RecomputeAcc} {b : Binding}
    (h : validateOf env b = none) :
    processBindingSelf env force_export acc b =
      match successVals env force_export b with
      | some v =>
        { acc with
          db := dbWrite acc.db [b.id] v
          writes := acc.writes ++ [⟨[b.id], v⟩] }
      | none => acc := by
  unfold validateOf at h
  simp only [processBindingSelf, processBinding, successVals, validateOf, h]
  by_cases hc : b.data ≠ some (env.mapper b.id) ∨ force_export = true <;>
    simp [hc]

/-- The error and write accumulators of the main loop, characterized
per binding of the processed list. -/
theorem foldl_process_trace (env : Env) (force_export : Bool)
    (L : List Binding) (acc : RecomputeAcc) :
    (L.foldl (processBindingSelf env force_export) acc).validation_errors =
        acc.validation_errors ++ L.flatMap (fun b =>
          match validateOf env b with
          | some e => [errorMsg b e]
          | none => [])
      ∧ (L.foldl (processBindingSelf env force_export) acc).to_be_checked =
        acc.to_be_checked ++ (L.filter (failsB env)).map Binding.id
      ∧ (L.foldl (processBindingSelf env force_export) acc).writes =
        acc.writes ++ L.filterMap (fun b =>
          (successVals env force_export b).map
            (fun v => WriteEvent.mk [b.id] v)) := by
  induction L generalizing acc with
  | nil => simp
  | cons b rest ih =>
    simp only [List.foldl_cons, List.flatMap_cons, List.filter_cons,
      List.filterMap_cons]
    cases h : validateOf env b with
    | some e =>
      have hf : failsB env b = true := by simp [failsB, h]
      have hs : successVals env force_export b = none := by
        simp [successVals, h]
      rw [processBindingSelf_fails h]
      rcases ih ({ acc with
        validation_errors := acc.validation_errors ++ [errorMsg b e]
        to_be_checked := acc.to_be_checked ++ [b.id] }) with ⟨ih1, ih2, ih3⟩
      refine ⟨?_, ?_, ?_⟩
      · rw [ih1]; simp
      · rw [ih2]; simp [hf]
      · rw [ih3]; simp [hs]
    | none =>
      have hf : failsB env b = false := by simp [failsB, h]
      rw [processBindingSelf_ok h]
      cases hs : successVals env force_export b with
      | some v =>
        rcases ih ({ acc with
          db := dbWrite acc.db [b.id] v
          writes := acc.writes ++ [⟨[b.id], v⟩] }) with ⟨ih1, ih2, ih3⟩
        refine ⟨?_, ?_, ?_⟩
        · rw [ih1]; simp [h]
        · rw [ih2]; simp [hf]
        · rw [ih3]; simp [hs]
      | none =>
        rcases ih acc with ⟨ih1, ih2, ih3⟩
        refine ⟨?_, ?_, ?_⟩
        · rw [ih1]; simp [h]
        · rw [ih2]; simp [hf]
        · rw [ih3]; simp [hs]

/-- The database id sequence is unchanged by the main loop. -/
theorem foldl_process_map_id (env : Env) (force_export : Bool)
    (L : List Binding) (acc : RecomputeAcc) :
    (L.foldl (processBindingSelf env force_export) acc).db.map Binding.id =
      acc.db.map Binding.id := by
  induction L generalizing acc with
  | nil => rfl
  | cons b rest ih =>
    rw [List.foldl_cons, ih]
    cases h : validateOf env b with
    | some e => rw [processBindingSelf_fails h]
    | none =>
      rw [processBindingSelf_ok h]
      cases hs : successVals env force_export b with
      | some v => exact dbWrite_map_id acc.db [b.id] v
      | none => rfl

end SeBinding

namespace SeBinding

/-- Pointwise effect of the main loop on the database: a processed binding
ends at `mapStep` of its snapshot, every other id is untouched.  Needs the
processed ids distinct and the snapshots in sync with the database. -/
theorem foldl_process_db (env : Env) (force_export : Bool) :
    ∀ (L : List Binding) (acc : RecomputeAcc),
      (L.map Binding.id).Nodup →
      (∀ b ∈ L, getById acc.db b.id = some b) →
      ∀ x : Nat,
        getById (L.foldl (processBindingSelf env force_export) acc).db x =
          match L.find? (fun b => decide (b.id = x)) with
          | some b => some (mapStep env force_export b)
          | none => getById acc.db x := by
  intro L
  induction L with
  | nil =>
    intro acc _ _ x
    rfl
  | cons b rest ih =>
    intro acc hnd hsnap x
    rw [List.map_cons, List.nodup_cons] at hnd
    have hbid : ∀ b' ∈ rest, b'.id ≠ b.id := by
      intro b' hb' he
      exact hnd.1 (he ▸ List.mem_map_of_mem Binding.id hb')
    have hstep_db : getById (processBindingSelf env force_export acc b).db b.id =
        some (mapStep env force_export b) := by
      cases h : validateOf env b with
      | some e =>
        rw [processBindingSelf_fails h]
        have : successVals env force_export b = none := by
          simp [successVals, h]
        simp only [mapStep, this]
        exact hsnap b (List.mem_cons_self b rest)
      | none =>
        rw [processBindingSelf_ok h]
        cases hs : successVals env force_export b with
        | some v =>
          simp only [mapStep, hs]
          rw [getById_dbWrite_mem (List.mem_singleton.mpr rfl)]
          rw [hsnap b (List.mem_cons_self b rest)]
          rfl
        | none =>
          simp only [mapStep, hs]
          exact hsnap b (List.mem_cons_self b rest)
    have hstep_frame : ∀ y : Nat, y ≠ b.id →
        getById (processBindingSelf env force_export acc b).db y =
          getById acc.db y := by
      intro y hy
      cases h : validateOf env b with
      | some e => rw [processBindingSelf_fails h]
      | none =>
        rw [processBindingSelf_ok h]
        cases hs : successVals env force_export b with
        | some v =>
          simp only
          exact getById_dbWrite_not_mem (by simp [hy])
        | none => rfl
    have hsnap' : ∀ b' ∈ rest,
        getById (processBindingSelf env force_export acc b).db b'.id =
          some b' := by
      intro b' hb'
      rw [hstep_frame b'.id (hbid b' hb')]
      exact hsnap b' (List.mem_cons_of_mem b hb')
    rw [List.foldl_cons]
    rw [ih (processBindingSelf env force_export acc b) hnd.2 hsnap' x]
    by_cases hx : b.id = x
    · subst hx
      have hfind : rest.find? (fun b' => decide (b'.id = b.id)) = none :=
        List.find?_eq_none.mpr (fun b' hb' => by simpa using hbid b' hb')
      simpa [hfind, List.find?_cons] using hstep_db
    · have hb_false : decide (b.id = x) = false := by simpa using hx
      rw [List.find?_cons]
      simp only [hb_false]
      cases hfind : rest.find? (fun b' => decide (b'.id = x)) with
      | some b' => simp [hfind]
      | none =>
        simp only [hfind]
        exact hstep_frame x (fun he => hx he.symm)

end SeBinding

namespace SeBinding

/-! ### Characterization of one `recompute_json` run -/

/-- The bindings processed by the main loop: the records of all work
sessions, concatenated. -/
def processedOf (recs : List Binding) : List Binding :=
  (_work_by_index recs true).flatMap Work.records

/-- The accumulator state after the main loop of `recompute_json`. -/
def loopAcc (env : Env) (force_export : Bool) (recs : List Binding) :
    RecomputeAcc :=
  (processedOf recs).foldl (processBindingSelf env force_export)
    ⟨recs, [], [], []⟩

/-- The ids collected into `to_be_checked` during a run. -/
def tbcOf (env : Env) (recs : List Binding) : List Nat :=
  ((processedOf recs).filter (failsB env)).map Binding.id

/-- The validation error messages collected during a run. -/
def errsOf (env : Env) (recs : List Binding) : List String :=
  (processedOf recs).flatMap (fun b =>
    match validateOf env b with
    | some e => [errorMsg b e]
    | none => [])

theorem recompute_json_acc (env : Env) (recs : List Binding)
    (force_export : Bool) :
    (recompute_json env recs force_export).1 =
      (if (loopAcc env force_export recs).to_be_checked = [] then
        loopAcc env force_export recs
      else
        { loopAcc env force_export recs with
          db := dbWrite (loopAcc env force_export recs).db
            (loopAcc env force_export recs).to_be_checked toBeCheckedVals
          writes := (loopAcc env force_export recs).writes ++
            [⟨(loopAcc env force_export recs).to_be_checked,
              toBeCheckedVals⟩] }) := by
  simp only [recompute_json, loopAcc, processedOf]
  rw [groups_foldl_eq]

theorem loopAcc_validation_errors (env : Env) (force_export : Bool)
    (recs : List Binding) :
    (loopAcc env force_export recs).validation_errors = errsOf env recs := by
  unfold loopAcc errsOf
  have h := (foldl_process_trace env force_export (processedOf recs)
    ⟨recs, [], [], []⟩).1
  simpa using h

theorem loopAcc_to_be_checked (env : Env) (force_export : Bool)
    (recs : List Binding) :
    (loopAcc env force_export recs).to_be_checked = tbcOf env recs := by
  unfold loopAcc tbcOf
  have h := (foldl_process_trace env force_export (processedOf recs)
    ⟨recs, [], [], []⟩).2.1
  simpa using h

theorem loopAcc_writes (env : Env) (force_export : Bool)
    (recs : List Binding) :
    (loopAcc env force_export recs).writes =
      (processedOf recs).filterMap (fun b =>
        (successVals env force_export b).map
          (fun v => WriteEvent.mk [b.id] v)) := by
  unfold loopAcc
  have h := (foldl_process_trace env force_export (processedOf recs)
    ⟨recs, [], [], []⟩).2.2
  simpa using h

theorem loopAcc_map_id (env : Env) (force_export : Bool)
    (recs : List Binding) :
    (loopAcc env force_export recs).db.map Binding.id =
      recs.map Binding.id := by
  unfold loopAcc
  exact foldl_process_map_id env force_export (processedOf recs)
    ⟨recs, [], [], []⟩

/-- The report string returned by `recompute_json`. -/
theorem recompute_json_report (env : Env) (recs : List Binding)
    (force_export : Bool) :
    (recompute_json env recs force_export).2 =
      if errsOf env recs = [] then ""
      else "Validation errors" ++ "\n" ++
        String.intercalate "\n" (errsOf env recs) := by
  simp only [recompute_json]
  rw [groups_foldl_eq]
  have hv : ((processedOf recs).foldl (processBindingSelf env force_export)
      ⟨recs, [], [], []⟩).validation_errors = errsOf env recs :=
    loopAcc_validation_errors env force_export recs
  unfold processedOf at hv
  simp only [hv]
  by_cases h : errsOf env recs = []
  · simp only [h, if_pos rfl]
    rfl
  · simp only [h, if_neg h]
    rfl

/-- The write trace of one `recompute_json` run: the per-binding writes of
the main loop, then (when some binding failed validation) the single
batched `to_be_checked` write. -/
theorem recompute_json_writes (env : Env) (recs : List Binding)
    (force_export : Bool) :
    (recompute_json env recs force_export).1.writes =
      (processedOf recs).filterMap (fun b =>
        (successVals env force_export b).map
          (fun v => WriteEvent.mk [b.id] v)) ++
      (if tbcOf env recs = [] then []
       else [⟨tbcOf env recs, toBeCheckedVals⟩]) := by
  rw [recompute_json_acc]
  rw [loopAcc_to_be_checked]
  by_cases h : tbcOf env recs = []
  · simp [h, loopAcc_writes]
  · simp only [h, if_neg h]
    simp [loopAcc_writes, h]

/-- The database after one `recompute_json` run, as the final batched write
applied to the database left by the main loop. -/
theorem recompute_json_db (env : Env) (recs : List Binding)
    (force_export : Bool) :
    (recompute_json env recs force_export).1.db =
      dbWrite (loopAcc env force_export recs).db (tbcOf env recs)
        toBeCheckedVals := by
  rw [recompute_json_acc, loopAcc_to_be_checked]
  by_cases h : tbcOf env recs = []
  · simp [h, dbWrite_nil, loopAcc_to_be_checked]
  · simp [h, loopAcc_to_be_checked]

end SeBinding

namespace SeBinding

/-! ### Per-binding characterization of the run -/

theorem mem_processedOf {recs : List Binding} {b : Binding} :
    b ∈ processedOf recs ↔ b ∈ recs ∧ b.active = true := by
  unfold processedOf
  rw [(work_records_perm recs true).mem_iff]
  simp [List.mem_filter]

theorem processedOf_ids_nodup {recs : List Binding}
    (h : (recs.map Binding.id).Nodup) :
    ((processedOf recs).map Binding.id).Nodup := by
  have hp : ((processedOf recs).map Binding.id).Perm
      ((recs.filter (fun b => decide (b.active = true))).map Binding.id) :=
    (work_records_perm recs true).map Binding.id
  rw [hp.nodup_iff]
  exact h.sublist ((List.filter_sublist recs).map Binding.id)

theorem eq_of_mem_of_id_eq {recs : List Binding}
    (h : (recs.map Binding.id).Nodup) {b c : Binding}
    (hb : b ∈ recs) (hc : c ∈ recs) (he : b.id = c.id) : b = c := by
  have h1 := getById_of_nodup h hb
  rw [he] at h1
  have h2 := getById_of_nodup h hc
  exact Option.some_injective _ (h1.symm.trans h2)

theorem writeOne_toBeCheckedVals (b : Binding) :
    writeOne b toBeCheckedVals =
      { b with sync_state := SyncState.to_be_checked } := by
  simp [writeOne, toBeCheckedVals, applyVals]

theorem mapStep_fails {env : Env} {force_export : Bool} {b : Binding}
    {e : String} (hv : validateOf env b = some e) :
    mapStep env force_export b = b := by
  simp [mapStep, successVals, hv]

theorem mapStep_ok {env : Env} {force_export : Bool} {b : Binding}
    (hv : validateOf env b = none) :
    mapStep env force_export b =
      if b.data ≠ some (env.mapper b.id) ∨ force_export = true then
        { b with
          data := some (env.mapper b.id)
          sync_state := SyncState.to_update }
      else b := by
  simp only [mapStep, successVals, hv]
  by_cases hc : b.data ≠ some (env.mapper b.id) ∨ force_export = true
  · simp only [if_pos hc]
    by_cases hs : b.sync_state = SyncState.to_update
    · simp [writeOne, applyVals, hs]
    · simp [writeOne, applyVals, hs]
  · simp [if_neg hc]

theorem recomputeOne_inactive {env : Env} {force_export : Bool} {b : Binding}
    (hact : ¬ b.active = true) : recomputeOne env force_export b = b := by
  simp [recomputeOne, hact]

theorem recomputeOne_fails {env : Env} {force_export : Bool} {b : Binding}
    {e : String} (hact : b.active = true) (hv : validateOf env b = some e) :
    recomputeOne env force_export b =
      { b with sync_state := SyncState.to_be_checked } := by
  unfold validateOf at hv
  simp [recomputeOne, hact, hv]

theorem recomputeOne_ok {env : Env} {force_export : Bool} {b : Binding}
    (hact : b.active = true) (hv : validateOf env b = none) :
    recomputeOne env force_export b =
      if b.data ≠ some (env.mapper b.id) ∨ force_export = true then
        { b with
          data := some (env.mapper b.id)
          sync_state := SyncState.to_update }
      else b := by
  unfold validateOf at hv
  simp [recomputeOne, hact, hv]

theorem recomputeOne_id (env : Env) (force_export : Bool) (b : Binding) :
    (recomputeOne env force_export b).id = b.id := by
  by_cases hact : b.active = true
  · cases hv : validateOf env b with
    | some e => rw [recomputeOne_fails hact hv]
    | none =>
      rw [recomputeOne_ok hact hv]
      by_cases hc : b.data ≠ some (env.mapper b.id) ∨ force_export = true <;>
        simp [hc]
  · rw [recomputeOne_inactive hact]

theorem mem_tbcOf {env : Env} {recs : List Binding} {x : Nat} :
    x ∈ tbcOf env recs ↔
      ∃ b ∈ processedOf recs, failsB env b = true ∧ b.id = x := by
  simp only [tbcOf, List.mem_map, List.mem_filter]
  constructor
  · rintro ⟨b, ⟨hb, hf⟩, he⟩
    exact ⟨b, hb, hf, he⟩
  · rintro ⟨b, hb, hf, he⟩
    exact ⟨b, ⟨hb, hf⟩, he⟩

/-- Lookup in the database left by the main loop, when the id was
processed. -/
theorem loopAcc_getById_found {env : Env} {force_export : Bool}
    {recs : List Binding} {b : Binding} {x : Nat}
    (hL : ((processedOf recs).map Binding.id).Nodup)
    (hsnap : ∀ c ∈ processedOf recs, getById recs c.id = some c)
    (hfind : (processedOf recs).find? (fun c => decide (c.id = x)) = some b) :
    getById (loopAcc env force_export recs).db x =
      some (mapStep env force_export b) := by
  unfold loopAcc
  rw [foldl_process_db env force_export (processedOf recs)
    ⟨recs, [], [], []⟩ hL hsnap x, hfind]

/-- Lookup in the database left by the main loop, when the id was not
processed. -/
theorem loopAcc_getById_not_found {env : Env} {force_export : Bool}
    {recs : List Binding} {x : Nat}
    (hL : ((processedOf recs).map Binding.id).Nodup)
    (hsnap : ∀ c ∈ processedOf recs, getById recs c.id = some c)
    (hfind : (processedOf recs).find? (fun c => decide (c.id = x)) = none) :
    getById (loopAcc env force_export recs).db x = getById recs x := by
  unfold loopAcc
  rw [foldl_process_db env force_export (processedOf recs)
    ⟨recs, [], [], []⟩ hL hsnap x, hfind]

/-- Pointwise master theorem: after one `recompute_json` run, the record
stored at any id is `recomputeOne` of the record previously stored there. -/
theorem recompute_json_getById (env : Env) (recs : List Binding)
    (force_export : Bool) (h : (recs.map Binding.id).Nodup) (x : Nat) :
    getById (recompute_json env recs force_export).1.db x =
      (getById recs x).map (recomputeOne env force_export) := by
  rw [recompute_json_db, getById_dbWrite]
  have hL : ((processedOf recs).map Binding.id).Nodup := processedOf_ids_nodup h
  have hsnap : ∀ b ∈ processedOf recs, getById recs b.id = some b :=
    fun b hb => getById_of_nodup h (mem_processedOf.mp hb).1
  cases hx : getById recs x with
  | none =>
    have hfind : (processedOf recs).find? (fun b => decide (b.id = x)) = none := by
      apply List.find?_eq_none.mpr
      intro b hb
      have hne := getById_eq_none.mp hx b (mem_processedOf.mp hb).1
      simpa using hne
    rw [loopAcc_getById_not_found hL hsnap hfind, hx]
    rfl
  | some b =>
    have hbid : b.id = x := getById_id hx
    have hbmem : b ∈ recs := getById_mem hx
    by_cases hact : b.active = true
    · have hbproc : b ∈ processedOf recs := mem_processedOf.mpr ⟨hbmem, hact⟩
      have hfind : (processedOf recs).find? (fun c => decide (c.id = x)) =
          some b := by
        cases hf : (processedOf recs).find? (fun c => decide (c.id = x)) with
        | none =>
          have := List.find?_eq_none.mp hf b hbproc
          simp [hbid] at this
        | some c =>
          have hc1 : c.id = x := by simpa using List.find?_some hf
          have hc2 : c ∈ recs :=
            (mem_processedOf.mp (List.mem_of_find?_eq_some hf)).1
          rw [eq_of_mem_of_id_eq h hc2 hbmem (hc1.trans hbid.symm)]
      rw [loopAcc_getById_found hL hsnap hfind]
      cases hv : validateOf env b with
      | some e =>
        have hstep : mapStep env force_export b = b := mapStep_fails hv
        have htbc : b.id ∈ tbcOf env recs :=
          mem_tbcOf.mpr ⟨b, hbproc, by simp [failsB, hv], rfl⟩
        rw [hstep]
        simp only [Option.map_some']
        rw [if_pos htbc, writeOne_toBeCheckedVals,
          recomputeOne_fails hact hv]
      | none =>
        have hntbc : (mapStep env force_export b).id ∉ tbcOf env recs := by
          rw [mapStep_id]
          intro hmem
          rcases mem_tbcOf.mp hmem with ⟨c, hc, hcf, hce⟩
          have : c = b :=
            eq_of_mem_of_id_eq h (mem_processedOf.mp hc).1 hbmem hce
          rw [this] at hcf
          simp [failsB, hv] at hcf
        simp only [Option.map_some']
        rw [if_neg hntbc, mapStep_ok hv, recomputeOne_ok hact hv]
    · have hfind : (processedOf recs).find? (fun c => decide (c.id = x)) =
          none := by
        apply List.find?_eq_none.mpr
        intro c hc
        rcases mem_processedOf.mp hc with ⟨hcmem, hcact⟩
        intro hce
        have hcex : c.id = x := by simpa using hce
        have : c = b := eq_of_mem_of_id_eq h hcmem hbmem (hcex.trans hbid.symm)
        rw [this] at hcact
        exact hact hcact
      rw [loopAcc_getById_not_found hL hsnap hfind, hx]
      have hntbc : b.id ∉ tbcOf env recs := by
        intro hmem
        rcases mem_tbcOf.mp hmem with ⟨c, hc, _, hce⟩
        rcases mem_processedOf.mp hc with ⟨hcmem, hcact⟩
        have : c = b := eq_of_mem_of_id_eq h hcmem hbmem hce
        rw [this] at hcact
        exact hact hcact
      simp only [Option.map_some']
      rw [if_neg hntbc, recomputeOne_inactive hact]

/-- Master theorem: under distinct ids, one `recompute_json` run maps every
binding of the recordset through `recomputeOne`, preserving order. -/
theorem recompute_json_db_eq (env : Env) (recs : List Binding)
    (force_export : Bool) (h : (recs.map Binding.id).Nodup) :
    (recompute_json env recs force_export).1.db =
      recs.map (recomputeOne env force_export) := by
  have hid : (recompute_json env recs force_export).1.db.map Binding.id =
      (recs.map (recomputeOne env force_export)).map Binding.id := by
    rw [recompute_json_db, dbWrite_map_id, loopAcc_map_id, List.map_map]
    apply List.map_congr_left
    intro b _
    exact (recomputeOne_id env force_export b).symm
  apply eq_of_getById_eq hid
  · rw [recompute_json_db, dbWrite_map_id, loopAcc_map_id]
    exact h
  · intro x
    rw [recompute_json_getById env recs force_export h x,
      getById_map (recomputeOne env force_export)
        (recomputeOne_id env force_export) recs x]

end SeBinding

namespace SeBinding

/-! ### The unlink guard -/

theorem canUnlink_iff (b : Binding) :
    canUnlink b = true ↔
      b.sync_state = SyncState.new ∨
        (b.sync_state = SyncState.done ∧ b.active = false) := by
  simp [canUnlink]

theorem unlinkCheck_eq_none {recs : List Binding} :
    unlinkCheck recs = none ↔ ∀ b ∈ recs, canUnlink b = true := by
  induction recs with
  | nil => simp [unlinkCheck]
  | cons b rest ih =>
    by_cases h : canUnlink b
    · simp [unlinkCheck, h, ih]
    · cases hb : b.active <;> simp [unlinkCheck, h, hb]

theorem unlinkCheck_first_offender {recs : List Binding} {b : Binding}
    (h : recs.find? (fun c => !canUnlink c) = some b) :
    unlinkCheck recs =
      some (if b.active then UserError.unactivateItFirst b.id
            else UserError.waitUntilSynchronized b.id) := by
  induction recs with
  | nil => simp at h
  | cons c rest ih =>
    rw [List.find?_cons] at h
    by_cases hc : canUnlink c
    · simp only [hc, Bool.not_true] at h
      rw [unlinkCheck, if_pos hc]
      exact ih h
    · have hcf : (!canUnlink c) = true := by simp [hc]
      simp only [hcf] at h
      have hcb : c = b := by simpa using h
      subst hcb
      cases hb : c.active <;> simp [unlinkCheck, hc, hb]

/-! ### Concrete fixtures used to instantiate the theorems -/

def newB : Binding := ⟨1, 10, 100, SyncState.new, none, none, none, true⟩
def doneB : Binding := ⟨2, 10, 100, SyncState.done, some 7, none, none, true⟩
def doneInactiveB : Binding :=
  ⟨3, 10, 100, SyncState.done, some 7, none, none, false⟩
def envOk : Env := ⟨fun i => i + 100, fun _ _ => none⟩
def envBad : Env := ⟨fun i => i + 100, fun _ _ => some "invalid document"⟩

/-! ### Claim theorems -/

/-- C9: `get_export_data` returns the stored `data` payload as last
computed; it modifies no field of any binding (the database comes back
unchanged), and it does not invoke the mapper or validator (the outcome is
independent of the capability environment). -/
theorem C9_get_export_data_pure (env env' : Env) (db : List Binding)
    (b : Binding) :
    (get_export_data env db b).1 = b.data ∧
    (get_export_data env db b).2 = db ∧
    get_export_data env db b = get_export_data env' db b :=
  ⟨rfl, rfl, rfl⟩

/-- C3: `unlink` succeeds, deleting every binding of the recordset from the
database, iff every binding has sync_state `new` or (`done` and inactive);
otherwise it raises a `UserError` determined by the first offending
binding (the "unactivate it first" error when that binding is active, the
"wait until synchronized" error when it is inactive) and the database is
left unchanged: nothing is deleted (all-or-nothing). -/
theorem C3_unlink_guard (db recs : List Binding) :
    ((unlink db recs).2 = none ↔
      ∀ b ∈ recs, b.sync_state = SyncState.new ∨
        (b.sync_state = SyncState.done ∧ b.active = false)) ∧
    ((unlink db recs).2 = none →
      (unlink db recs).1 =
        db.filter (fun b => decide (b.id ∉ recs.map Binding.id))) ∧
    ((unlink db recs).2 ≠ none → (unlink db recs).1 = db) ∧
    (∀ b, recs.find? (fun c => !canUnlink c) = some b →
      (unlink db recs).2 =
        some (if b.active then UserError.unactivateItFirst b.id
              else UserError.waitUntilSynchronized b.id)) := by
  refine ⟨?_, ?_, ?_, ?_⟩
  · constructor
    · intro h b hb
      cases hu : unlinkCheck recs with
      | some e => simp [unlink, hu] at h
      | none => exact (canUnlink_iff b).mp (unlinkCheck_eq_none.mp hu b hb)
    · intro h
      have hu : unlinkCheck recs = none :=
        unlinkCheck_eq_none.mpr (fun b hb => (canUnlink_iff b).mpr (h b hb))
      simp [unlink, hu]
  · intro h
    cases hu : unlinkCheck recs with
    | some e => simp [unlink, hu] at h
    | none => simp [unlink, hu]
  · intro h
    cases hu : unlinkCheck recs with
    | some e => simp [unlink, hu]
    | none => simp [unlink, hu] at h
  · intro b hfind
    have hu := unlinkCheck_first_offender hfind
    simp [unlink, hu]

/-- C3 witness: a deletable recordset is deleted; with an active `done`
binding first, the call aborts with the "unactivate it first" error and
the database is unchanged. -/
theorem C3_unlink_guard_witness :
    (unlink [newB, doneB] [newB]).2 = none ∧
    (unlink [newB, doneB] [doneB]).1 = [newB, doneB] ∧
    (unlink [newB, doneB] [doneB]).2 =
      some (UserError.unactivateItFirst doneB.id) :=
  ⟨(C3_unlink_guard [newB, doneB] [newB]).1.mpr (by decide),
   (C3_unlink_guard [newB, doneB] [doneB]).2.2.1 (by decide),
   by
    have h := (C3_unlink_guard [newB, doneB] [doneB]).2.2.2 doneB (by decide)
    simpa using h⟩

/-- C4 counterexample: the claim also covers a deactivating write that
itself supplies a sync_state; on a `new` binding the code applies the
supplied value, so the binding does not stay `new`. -/
theorem C4_counterexample :
    (Vals.mk (some false) (some SyncState.done) none).active = some false ∧
    newB.sync_state = SyncState.new ∧
    (writeOne newB (Vals.mk (some false) (some SyncState.done) none)).sync_state
      ≠ SyncState.new := by
  decide

/-- C4 (amended): a write that sets active to false forces
sync_state = to_update on a binding that is not `new`; on a `new` binding
the values dictionary is applied as supplied — sync_state stays `new`
exactly when the write does not itself supply a sync_state; the other
fields of the write are applied to both kinds of binding. -/
theorem C4_amended_deactivation (b : Binding) (v : Vals)
    (hv : v.active = some false) :
    (b.sync_state ≠ SyncState.new →
      (writeOne b v).sync_state = SyncState.to_update) ∧
    (b.sync_state = SyncState.new →
      (writeOne b v).sync_state = v.sync_state.getD b.sync_state) ∧
    (writeOne b v).active = false ∧
    (writeOne b v).data = v.data.getD b.data := by
  unfold writeOne
  by_cases hs : b.sync_state = SyncState.new
  · rw [if_neg (by simp [hs])]
    exact ⟨fun hc => absurd hs hc, fun _ => rfl, by simp [applyVals, hv], rfl⟩
  · rw [if_pos ⟨hv, hs⟩]
    exact ⟨fun _ => rfl, fun hc => absurd hc hs, by simp [applyVals, hv], rfl⟩

/-- C4 witness: deactivating a `done` binding forces to_update; a plain
deactivation (no sync_state key) leaves a `new` binding `new`. -/
theorem C4_amended_deactivation_witness :
    (writeOne doneB (Vals.mk (some false) none none)).sync_state =
      SyncState.to_update ∧
    (writeOne newB (Vals.mk (some false) none none)).sync_state =
      (Vals.mk (some false) none none).sync_state.getD newB.sync_state :=
  ⟨(C4_amended_deactivation doneB (Vals.mk (some false) none none)
      rfl).1 (by decide),
   (C4_amended_deactivation newB (Vals.mk (some false) none none)
      rfl).2.1 (by decide)⟩

/-- C10: when a single write both deactivates a binding that is not `new`
and supplies an explicit sync_state, the deactivation path overrides the
supplied value: the resulting sync_state is to_update. -/
theorem C10_deactivation_overrides_sync_state (b : Binding) (v : Vals)
    (s : SyncState) (h1 : b.sync_state ≠ SyncState.new)
    (h2 : v.active = some false) (h3 : v.sync_state = some s) :
    (writeOne b v).sync_state = SyncState.to_update := by
  unfold writeOne
  rw [if_pos ⟨h2, h1⟩]
  rfl

/-- C10 witness: a write with active=false and an explicit
sync_state=done on a `done` binding still yields to_update. -/
theorem C10_deactivation_overrides_sync_state_witness :
    (writeOne doneB (Vals.mk (some false) (some SyncState.done) none)
      ).sync_state = SyncState.to_update :=
  C10_deactivation_overrides_sync_state doneB
    (Vals.mk (some false) (some SyncState.done) none) SyncState.done
    (by decide) rfl rfl

theorem countP_eq_one_of_nodup {β : Type} [DecidableEq β] {l : List β}
    (hl : l.Nodup) {k : β} (hk : k ∈ l) :
    l.countP (fun p => decide (p = k)) = 1 := by
  induction l with
  | nil => cases hk
  | cons a rest ih =>
    rw [List.nodup_cons] at hl
    rcases List.mem_cons.mp hk with heq | hk'
    · rw [List.countP_cons_of_pos _ _ (by simp [heq])]
      have hz : rest.countP (fun p => decide (p = k)) = 0 := by
        rw [List.countP_eq_zero]
        intro p hp
        simp only [decide_eq_true_eq]
        intro he
        exact hl.1 (heq ▸ he ▸ hp)
      rw [hz]
    · have hne : ¬ (a = k) := fun he => hl.1 (he ▸ hk')
      rw [List.countP_cons_of_neg _ _ (by simp [hne])]
      exact ih hl.2 hk'

/-- C2 counterexample: a recordset made of one inactive binding, with the
default active=true filter.  The partitioner yields the group of the
binding's backend/index pair with an empty record set, so "no yielded
group has an empty record set" fails (the per-binding part holds
vacuously). -/
theorem C2_counterexample :
    ¬ ((∀ b ∈ [doneInactiveB], b.active = true →
          (_work_by_index [doneInactiveB] true).countP
            (fun w => decide (b ∈ w.records)) = 1) ∧
       (∀ w ∈ _work_by_index [doneInactiveB] true, w.records ≠ [])) := by
  decide

/-- C2 (amended): every binding of the recordset whose active flag matches
the filter appears in the records of exactly one yielded group; a yielded
group may however have an empty record set, since one group is yielded for
every backend/index pair of the recordset, including pairs with no
matching binding. -/
theorem C2_amended_exactly_one_group (recs : List Binding) (active : Bool)
    (b : Binding) (hb : b ∈ recs) (hact : b.active = active) :
    (_work_by_index recs active).countP
      (fun w => decide (b ∈ w.records)) = 1 := by
  rw [_work_by_index_eq, List.countP_map]
  have hcongr :
      (workPairs recs).countP
        ((fun w => decide (b ∈ w.records)) ∘ mkWork recs active) =
      (workPairs recs).countP
        (fun p => decide (p = (b.se_backend_id, b.index_id))) := by
    apply List.countP_congr
    intro p _
    simp only [Function.comp_apply, decide_eq_true_eq]
    rw [mem_mkWork_records]
    constructor
    · rintro ⟨_, h1, h2, _⟩
      rcases p with ⟨p1, p2⟩
      simp only [Prod.mk.injEq]
      exact ⟨h1.symm, h2.symm⟩
    · rintro rfl
      exact ⟨hb, rfl, rfl, hact⟩
  rw [hcongr]
  exact countP_eq_one_of_nodup (workPairs_nodup recs) (mem_workPairs hb)

/-- C2 witness: a two-backend, two-index recordset where each binding lands
in exactly one group. -/
theorem C2_amended_exactly_one_group_witness :
    (_work_by_index [newB, doneInactiveB] true).countP
      (fun w => decide (newB ∈ w.records)) = 1 :=
  C2_amended_exactly_one_group [newB, doneInactiveB] true newB
    (by decide) (by decide)

end SeBinding

namespace SeBinding

/-! ### recomputeOne invariants -/

theorem recomputeOne_active (env : Env) (force_export : Bool) (b : Binding) :
    (recomputeOne env force_export b).active = b.active := by
  by_cases hact : b.active = true
  · cases hv : validateOf env b with
    | some e => rw [recomputeOne_fails hact hv]
    | none =>
      rw [recomputeOne_ok hact hv]
      by_cases hc : b.data ≠ some (env.mapper b.id) ∨ force_export = true <;>
        simp [hc]
  · rw [recomputeOne_inactive hact]

theorem recomputeOne_backend (env : Env) (force_export : Bool) (b : Binding) :
    (recomputeOne env force_export b).se_backend_id = b.se_backend_id := by
  by_cases hact : b.active = true
  · cases hv : validateOf env b with
    | some e => rw [recomputeOne_fails hact hv]
    | none =>
      rw [recomputeOne_ok hact hv]
      by_cases hc : b.data ≠ some (env.mapper b.id) ∨ force_export = true <;>
        simp [hc]
  · rw [recomputeOne_inactive hact]

theorem validateOf_recomputeOne (env : Env) (force_export : Bool)
    (b : Binding) :
    validateOf env (recomputeOne env force_export b) = validateOf env b := by
  unfold validateOf
  rw [recomputeOne_backend, recomputeOne_id]

/-- After a successful (validated) recompute with force=false, the stored
payload is exactly the mapped document. -/
theorem recomputeOne_data_ok {env : Env} {b : Binding}
    (hact : b.active = true) (hv : validateOf env b = none) :
    (recomputeOne env false b).data = some (env.mapper b.id) := by
  rw [recomputeOne_ok hact hv]
  by_cases hc : b.data ≠ some (env.mapper b.id) ∨ false = true
  · rw [if_pos hc]
  · rw [if_neg hc]
    push_neg at hc
    exact hc.1

/-- `recomputeOne` with force=false is idempotent. -/
theorem recomputeOne_idem (env : Env) (b : Binding) :
    recomputeOne env false (recomputeOne env false b) =
      recomputeOne env false b := by
  by_cases hact : b.active = true
  · cases hv : validateOf env b with
    | some e =>
      rw [recomputeOne_fails hact hv]
      have hact' :
          (Binding.sync_state { b with sync_state := SyncState.to_be_checked }
            ) = SyncState.to_be_checked := rfl
      rw [recomputeOne_fails (b := { b with
        sync_state := SyncState.to_be_checked }) hact hv]
    | none =>
      by_cases hc : b.data ≠ some (env.mapper b.id) ∨ false = true
      · have hupd : recomputeOne env false b =
            { b with
              data := some (env.mapper b.id)
              sync_state := SyncState.to_update } := by
          rw [recomputeOne_ok hact hv, if_pos hc]
        rw [hupd]
        rw [recomputeOne_ok (b := { b with
          data := some (env.mapper b.id)
          sync_state := SyncState.to_update }) hact hv]
        rw [if_neg (by simp)]
      · have hid : recomputeOne env false b = b := by
          rw [recomputeOne_ok hact hv, if_neg hc]
        rw [hid, hid]
  · rw [recomputeOne_inactive hact, recomputeOne_inactive hact]

/-! ### Claims about recompute_json -/

/-- C1: whenever a `recompute_json` run (with either force_export value)
changes the `data` of a binding, that binding ends the run with
sync_state = to_update. -/
theorem C1_data_change_to_update (env : Env) (recs : List Binding)
    (force_export : Bool) (h : (recs.map Binding.id).Nodup)
    (x : Nat) (b b' : Binding)
    (hb : getById recs x = some b)
    (hb' : getById (recompute_json env recs force_export).1.db x = some b')
    (hchange : b'.data ≠ b.data) :
    b'.sync_state = SyncState.to_update := by
  rw [recompute_json_getById env recs force_export h x, hb,
    Option.map_some'] at hb'
  have hb'eq : b' = recomputeOne env force_export b :=
    (Option.some_injective _ hb').symm
  subst hb'eq
  by_cases hact : b.active = true
  · cases hv : validateOf env b with
    | some e =>
      rw [recomputeOne_fails hact hv] at hchange
      simp at hchange
    | none =>
      rw [recomputeOne_ok hact hv] at hchange ⊢
      by_cases hc : b.data ≠ some (env.mapper b.id) ∨ force_export = true
      · rw [if_pos hc]
      · rw [if_neg hc] at hchange
        simp at hchange
  · rw [recomputeOne_inactive hact] at hchange
    simp at hchange

/-- C1 witness: a `done` binding whose stored payload differs from the
mapped document gets the new payload and lands in to_update. -/
theorem C1_data_change_to_update_witness :
    getById (recompute_json envOk [doneB] false).1.db 2 =
      some { doneB with
        data := some 102
        sync_state := SyncState.to_update } ∧
    ({ doneB with
        data := some 102
        sync_state := SyncState.to_update } : Binding).sync_state =
      SyncState.to_update :=
  ⟨by decide,
   C1_data_change_to_update envOk [doneB] false (by decide) 2 doneB
     { doneB with
       data := some 102
       sync_state := SyncState.to_update }
     (by decide) (by decide) (by decide)⟩

/-- C7: with force_export=true, every active binding passing validation is
rewritten — the mapped document is written to `data` (a write event for
the binding carrying the document is in the trace, even when the document
equals the stored payload) and the binding ends in to_update. -/
theorem C7_force_export_always_rewrites (env : Env) (recs : List Binding)
    (h : (recs.map Binding.id).Nodup) (b : Binding)
    (hb : b ∈ recs) (hact : b.active = true)
    (hv : validateOf env b = none) :
    getById (recompute_json env recs true).1.db b.id =
      some { b with
        data := some (env.mapper b.id)
        sync_state := SyncState.to_update } ∧
    (∃ v : Vals, WriteEvent.mk [b.id] v ∈ (recompute_json env recs true).1.writes ∧
      v.data = some (some (env.mapper b.id))) := by
  constructor
  · rw [recompute_json_getById env recs true h b.id, getById_of_nodup h hb,
      Option.map_some', recomputeOne_ok hact hv]
    rw [if_pos (by simp)]
  · have hproc : b ∈ processedOf recs := mem_processedOf.mpr ⟨hb, hact⟩
    have hsv : successVals env true b =
        some { data := some (some (env.mapper b.id))
               sync_state :=
                 if b.sync_state ≠ SyncState.to_update then
                   some SyncState.to_update
                 else none } := by
      simp [successVals, hv]
    refine ⟨{ data := some (some (env.mapper b.id))
              sync_state :=
                if b.sync_state ≠ SyncState.to_update then
                  some SyncState.to_update
                else none }, ?_, rfl⟩
    rw [recompute_json_writes]
    apply List.mem_append_left
    apply List.mem_filterMap.mpr
    exact ⟨b, hproc, by rw [hsv]; rfl⟩

/-- C7 witness: force=true rewrites a binding whose payload already equals
the mapped document and flags it to_update. -/
theorem C7_force_export_always_rewrites_witness :
    getById (recompute_json envOk
        [{ doneB with data := some 102 }] true).1.db 2 =
      some { doneB with
        data := some 102
        sync_state := SyncState.to_update } ∧
    (∃ v : Vals, WriteEvent.mk [2] v ∈
        (recompute_json envOk [{ doneB with data := some 102 }] true).1.writes ∧
      v.data = some (some 102)) :=
  C7_force_export_always_rewrites envOk [{ doneB with data := some 102 }]
    (by decide) { doneB with data := some 102 } (by decide) (by decide)
    (by decide)

end SeBinding

namespace SeBinding

/-- C6 counterexample: one active binding whose document fails validation.
The second `recompute_json` call (force=false, deterministic mapper, no
underlying change) still performs a write: it re-writes
sync_state = to_be_checked, so "produces no second write" fails even
though no field value changes. -/
theorem C6_counterexample :
    (recompute_json envBad
      (recompute_json envBad [doneB] false).1.db false).1.writes ≠ [] := by
  decide

/-- C6 (amended): calling `recompute_json` with force_export=false twice in
a row (deterministic mapper, no underlying record change) leaves every
binding exactly as the first call left it, and the second call performs no
write provided every active binding passes validation; bindings failing
validation are re-flagged to_be_checked by a write on every call, writing
the same value, so there is still no state transition. -/
theorem C6_amended_idempotence (env : Env) (recs : List Binding)
    (h : (recs.map Binding.id).Nodup) :
    (recompute_json env (recompute_json env recs false).1.db false).1.db =
      (recompute_json env recs false).1.db ∧
    ((∀ b ∈ recs, b.active = true → validateOf env b = none) →
      (recompute_json env (recompute_json env recs false).1.db
        false).1.writes = []) := by
  have hdb1 : (recompute_json env recs false).1.db =
      recs.map (recomputeOne env false) := recompute_json_db_eq env recs false h
  have hids : (recompute_json env recs false).1.db.map Binding.id =
      recs.map Binding.id := by
    rw [hdb1, List.map_map]
    apply List.map_congr_left
    intro b _
    exact recomputeOne_id env false b
  have h1 : ((recompute_json env recs false).1.db.map Binding.id).Nodup := by
    rw [hids]
    exact h
  constructor
  · rw [recompute_json_db_eq env _ false h1, hdb1, List.map_map]
    apply List.map_congr_left
    intro b _
    exact recomputeOne_idem env b
  · intro hall
    rw [recompute_json_writes]
    have hkey : ∀ c ∈ processedOf (recompute_json env recs false).1.db,
        successVals env false c = none ∧ failsB env c = false := by
      intro c hc
      rcases mem_processedOf.mp hc with ⟨hcmem, hcact⟩
      rw [hdb1] at hcmem
      rcases List.mem_map.mp hcmem with ⟨b, hbmem, rfl⟩
      have hbact : b.active = true := by
        rw [recomputeOne_active] at hcact
        exact hcact
      have hbv : validateOf env b = none := hall b hbmem hbact
      have hcv : validateOf env (recomputeOne env false b) = none := by
        rw [validateOf_recomputeOne]
        exact hbv
      have hdata : (recomputeOne env false b).data =
          some (env.mapper (recomputeOne env false b).id) := by
        rw [recomputeOne_id]
        exact recomputeOne_data_ok hbact hbv
      refine ⟨?_, by simp [failsB, hcv]⟩
      simp [successVals, hcv, hdata]
    have hmain : (processedOf (recompute_json env recs false).1.db).filterMap
        (fun b => (successVals env false b).map
          (fun v => WriteEvent.mk [b.id] v)) = [] := by
      rw [List.filterMap_eq_nil_iff]
      intro c hc
      rw [(hkey c hc).1]
      rfl
    have htbc : tbcOf env (recompute_json env recs false).1.db = [] := by
      unfold tbcOf
      have hfil : (processedOf (recompute_json env recs false).1.db).filter
          (failsB env) = [] := by
        rw [List.filter_eq_nil_iff]
        intro c hc
        simp [(hkey c hc).2]
      rw [hfil]
      rfl
    rw [hmain, htbc]
    simp

/-- C6 witness: a valid one-binding batch; the second call changes nothing
and performs no write. -/
theorem C6_amended_idempotence_witness :
    (recompute_json envOk (recompute_json envOk [doneB] false).1.db
      false).1.db = (recompute_json envOk [doneB] false).1.db ∧
    (recompute_json envOk (recompute_json envOk [doneB] false).1.db
      false).1.writes = [] :=
  ⟨(C6_amended_idempotence envOk [doneB] (by decide)).1,
   (C6_amended_idempotence envOk [doneB] (by decide)).2 (by decide)⟩

theorem foldl_append_eq_flatMap {α β : Type} (l : List α) (f : α → List β) :
    ∀ init : List β,
      l.foldl (fun ids a => ids ++ f a) init = init ++ l.flatMap f := by
  induction l with
  | nil =>
    intro init
    simp
  | cons a rest ih =>
    intro init
    rw [List.foldl_cons, ih, List.flatMap_cons, List.append_assoc]

/-- C8: `synchronize` runs an export pass whose per-session exporter calls
cover, together, exactly the ids of the active bindings of the recordset,
followed by a delete pass whose deleter calls cover exactly the ids of the
inactive bindings; the returned report lists both id lists. -/
theorem C8_synchronize_passes (recs : List Binding) :
    (synchronize recs).export_ids.Perm
      ((recs.filter (fun b => decide (b.active = true))).map Binding.id) ∧
    (synchronize recs).delete_ids.Perm
      ((recs.filter (fun b => decide (b.active = false))).map Binding.id) ∧
    (synchronize recs).report =
      "Exported ids : " ++ toString (synchronize recs).export_ids ++
      "\nDeleted ids : " ++ toString (synchronize recs).delete_ids ∧
    (synchronize recs).calls =
      (_work_by_index recs true).map (fun w =>
        ⟨"se.record.exporter", w.backend, w.index,
          w.records.map Binding.id⟩) ++
      (_work_by_index recs false).map (fun w =>
        ⟨"record.exporter.deleter", w.backend, w.index,
          w.records.map Binding.id⟩) := by
  have hexp : (synchronize recs).export_ids =
      ((_work_by_index recs true).flatMap Work.records).map Binding.id := by
    simp only [synchronize]
    rw [foldl_append_eq_flatMap, List.nil_append, List.map_flatMap]
  have hdel : (synchronize recs).delete_ids =
      ((_work_by_index recs false).flatMap Work.records).map Binding.id := by
    simp only [synchronize]
    rw [foldl_append_eq_flatMap, List.nil_append, List.map_flatMap]
  refine ⟨?_, ?_, rfl, rfl⟩
  · rw [hexp]
    exact (work_records_perm recs true).map Binding.id
  · rw [hdel]
    exact (work_records_perm recs false).map Binding.id

end SeBinding

namespace SeBinding

theorem recompute_json_validation_errors (env : Env) (recs : List Binding)
    (force_export : Bool) :
    (recompute_json env recs force_export).1.validation_errors =
      errsOf env recs := by
  rw [recompute_json_acc]
  by_cases ht : (loopAcc env force_export recs).to_be_checked = [] <;>
    simp [ht, loopAcc_validation_errors]

theorem successVals_sync_state {env : Env} {force_export : Bool}
    {c : Binding} {v : Vals} (h : successVals env force_export c = some v) :
    v.sync_state ≠ some SyncState.to_be_checked := by
  unfold successVals at h
  cases hv : validateOf env c with
  | some e =>
    rw [hv] at h
    simp at h
  | none =>
    rw [hv] at h
    by_cases hc : c.data ≠ some (env.mapper c.id) ∨ force_export = true
    · rw [if_pos hc] at h
      have hveq := Option.some_injective _ h
      rw [← hveq]
      by_cases hs : c.sync_state ≠ SyncState.to_update <;> simp [hs]
    · rw [if_neg hc] at h
      simp at h

/-- C5: in a batch where one binding's candidate document fails validation,
the failed binding is set to sync_state = to_be_checked with its stored
`data` untouched, its error message appears in the collected validation
errors, which the returned report is built from; every other binding of the
batch is still processed normally (`recomputeOne`); and the to_be_checked
state is written by one single batched write, placed after all per-record
data writes — no other write of the run carries sync_state = to_be_checked. -/
theorem C5_validation_failure_isolation (env : Env) (recs : List Binding)
    (force_export : Bool) (h : (recs.map Binding.id).Nodup)
    (b : Binding) (e : String) (hb : b ∈ recs) (hact : b.active = true)
    (hv : validateOf env b = some e) :
    getById (recompute_json env recs force_export).1.db b.id =
      some { b with sync_state := SyncState.to_be_checked } ∧
    errorMsg b e ∈
      (recompute_json env recs force_export).1.validation_errors ∧
    (recompute_json env recs force_export).2 =
      "Validation errors" ++ "\n" ++ String.intercalate "\n"
        (recompute_json env recs force_export).1.validation_errors ∧
    (∀ c ∈ recs, c.id ≠ b.id →
      getById (recompute_json env recs force_export).1.db c.id =
        some (recomputeOne env force_export c)) ∧
    (∃ ev : WriteEvent,
      (recompute_json env recs force_export).1.writes.getLast? = some ev ∧
      ev.vals = toBeCheckedVals ∧
      (∀ c ∈ recs, (c.id ∈ ev.ids ↔
        c.active = true ∧ failsB env c = true)) ∧
      (∀ w ∈ (recompute_json env recs force_export).1.writes.dropLast,
        w.vals.sync_state ≠ some SyncState.to_be_checked)) := by
  have hproc : b ∈ processedOf recs := mem_processedOf.mpr ⟨hb, hact⟩
  have herr : errorMsg b e ∈ errsOf env recs := by
    unfold errsOf
    apply List.mem_flatMap.mpr
    refine ⟨b, hproc, ?_⟩
    rw [hv]
    exact List.mem_singleton.mpr rfl
  have htbcb : b.id ∈ tbcOf env recs :=
    mem_tbcOf.mpr ⟨b, hproc, by simp [failsB, hv], rfl⟩
  have htbcne : tbcOf env recs ≠ [] := List.ne_nil_of_mem htbcb
  refine ⟨?_, ?_, ?_, ?_, ?_⟩
  · rw [recompute_json_getById env recs force_export h b.id,
      getById_of_nodup h hb, Option.map_some', recomputeOne_fails hact hv]
  · rw [recompute_json_validation_errors]
    exact herr
  · rw [recompute_json_report, recompute_json_validation_errors]
    rw [if_neg (List.ne_nil_of_mem herr)]
  · intro c hc _
    rw [recompute_json_getById env recs force_export h c.id,
      getById_of_nodup h hc, Option.map_some']
  · refine ⟨⟨tbcOf env recs, toBeCheckedVals⟩, ?_, rfl, ?_, ?_⟩
    · rw [recompute_json_writes, if_neg htbcne]
      exact List.getLast?_concat _
    · intro c hc
      constructor
      · intro hmem
        rcases mem_tbcOf.mp hmem with ⟨d, hd, hdf, hde⟩
        have hdc : d = c :=
          eq_of_mem_of_id_eq h (mem_processedOf.mp hd).1 hc hde
        rw [hdc] at hdf hd
        exact ⟨(mem_processedOf.mp hd).2, hdf⟩
      · rintro ⟨hcact, hcf⟩
        exact mem_tbcOf.mpr ⟨c, mem_processedOf.mpr ⟨hc, hcact⟩, hcf, rfl⟩
    · intro w hw
      rw [recompute_json_writes, if_neg htbcne, List.dropLast_concat] at hw
      rcases List.mem_filterMap.mp hw with ⟨c, _, hcw⟩
      rcases Option.map_eq_some'.mp hcw with ⟨v, hcv, hvw⟩
      rw [← hvw]
      exact successVals_sync_state hcv

def a1 : Binding := ⟨1, 10, 100, SyncState.done, some 9, none, none, true⟩
def a2 : Binding := ⟨2, 10, 100, SyncState.done, some 9, none, none, true⟩
def a3 : Binding := ⟨3, 10, 100, SyncState.done, some 9, none, none, true⟩
def envMid : Env :=
  ⟨fun i => i, fun _ d => if d = 2 then some "invalid document" else none⟩

/-- C5 witness: a three-binding batch whose middle binding fails
validation; the middle binding is quarantined with its payload untouched
and its message collected, while its neighbours are processed normally. -/
theorem C5_validation_failure_isolation_witness :
    getById (recompute_json envMid [a1, a2, a3] false).1.db 2 =
      some { a2 with sync_state := SyncState.to_be_checked } ∧
    errorMsg a2 "invalid document" ∈
      (recompute_json envMid [a1, a2, a3] false).1.validation_errors ∧
    getById (recompute_json envMid [a1, a2, a3] false).1.db 1 =
      some (recomputeOne envMid false a1) ∧
    getById (recompute_json envMid [a1, a2, a3] false).1.db 3 =
      some (recomputeOne envMid false a3) :=
  ⟨(C5_validation_failure_isolation envMid [a1, a2, a3] false (by decide)
      a2 "invalid document" (by decide) (by decide) (by decide)).1,
   (C5_validation_failure_isolation envMid [a1, a2, a3] false (by decide)
      a2 "invalid document" (by decide) (by decide) (by decide)).2.1,
   (C5_validation_failure_isolation envMid [a1, a2, a3] false (by decide)
      a2 "invalid document" (by decide) (by decide) (by decide)).2.2.2.1
     a1 (by decide) (by decide),
   (C5_validation_failure_isolation envMid [a1, a2, a3] false (by decide)
      a2 "invalid document" (by decide) (by decide) (by decide)).2.2.2.1
     a3 (by decide) (by decide)⟩

end SeBinding
